import Mathlib

/-!
Verification of the timer, audio, keyboard-input and loop logic of
`focus/main.py` (a terminal focus-session tool).

The Python code is shallowly embedded: wall-clock time (`time.time()`)
is modelled as an explicit rational argument `now`, audio-device state
(`pygame.mixer.music`) as a `Mixer` record, and the interactive loops as
recursive functions over a list of per-tick inputs (the key returned by
the poll, the device busy flag, and the clock value at that tick).
-/

/-- State of the single `pygame.mixer.music` stream: whether a track is
loaded and playing, whether playback is paused, and the channel volume. -/
structure Mixer where
  playing : Bool
  paused : Bool
  volume : ℚ
deriving DecidableEq

/-- `pygame.mixer.music.play` (after `load`): starts playback of the track. -/
def Mixer.play (m : Mixer) : Mixer :=
  { m with playing := true, paused := false }

/-- `pygame.mixer.music.stop`. -/
def Mixer.stop (m : Mixer) : Mixer :=
  { m with playing := false }

/-- `pygame.mixer.music.pause`. -/
def Mixer.pause (m : Mixer) : Mixer :=
  { m with paused := true }

/-- `pygame.mixer.music.unpause`. -/
def Mixer.unpause (m : Mixer) : Mixer :=
  { m with paused := false }

/-- `pygame.mixer.music.set_volume`. -/
def Mixer.set_volume (m : Mixer) (v : ℚ) : Mixer :=
  { m with volume := v }

/-- The `AudioPlayer` object of `main.py`: its own fields are `is_muted`
and `saved_volume`; the actual volume lives in the mixer. -/
structure AudioPlayer where
  is_muted : Bool
  saved_volume : ℚ
deriving DecidableEq

/-- `AudioPlayer.__init__`: `is_muted = False`, `saved_volume = 1.0`. -/
def AudioPlayer.init : AudioPlayer :=
  { is_muted := false, saved_volume := 1 }

/-- `AudioPlayer.toggle_mute` (main.py lines 59-68), acting on the player
object and the mixer; returns the new mute state as the Python method does. -/
def AudioPlayer.toggle_mute (ap : AudioPlayer) (m : Mixer) :
    AudioPlayer × Mixer × Bool :=
  if ap.is_muted then
    ({ ap with is_muted := false }, m.set_volume ap.saved_volume, false)
  else
    ({ ap with is_muted := true, saved_volume := m.volume }, m.set_volume 0, true)

/-- The `FocusSession` object of `main.py` (lines 117-163). `time.time()`
values are rationals supplied by the caller. -/
structure FocusSession where
  duration : ℚ
  is_paused : Bool
  session_active : Bool
  time_remaining : ℚ
  last_update : ℚ
deriving DecidableEq

/-- `FocusSession.__init__(duration_minutes, audio_player)`: the stored
duration is `duration_minutes * 60` seconds and `last_update` is the
creation time. -/
def FocusSession.init (duration_minutes : ℚ) (now : ℚ) : FocusSession :=
  { duration := duration_minutes * 60
    is_paused := false
    session_active := true
    time_remaining := duration_minutes * 60
    last_update := now }

/-- `FocusSession.toggle_pause` (lines 128-136): flips `is_paused`,
pauses or unpauses the audio, and on resume resets `last_update` to the
current time; returns the new pause state. -/
def FocusSession.toggle_pause (s : FocusSession) (m : Mixer) (now : ℚ) :
    FocusSession × Mixer × Bool :=
  if s.is_paused then
    ({ s with is_paused := false, last_update := now }, m.unpause, false)
  else
    ({ s with is_paused := true }, m.pause, true)

/-- `FocusSession.update_timer` (lines 138-148): only when not paused and
still active, subtract the wall-clock delta since `last_update` from
`time_remaining` and advance `last_update`; on reaching `≤ 0`, clamp
`time_remaining` to `0` and clear `session_active`. -/
def FocusSession.update_timer (s : FocusSession) (now : ℚ) : FocusSession :=
  if s.is_paused = false ∧ s.session_active = true then
    let elapsed := now - s.last_update
    let tr := s.time_remaining - elapsed
    if tr ≤ 0 then
      { s with time_remaining := 0, session_active := false, last_update := now }
    else
      { s with time_remaining := tr, last_update := now }
  else s

/-- `FocusSession.is_complete` (lines 161-163). -/
def FocusSession.is_complete (s : FocusSession) : Bool :=
  !s.session_active

/-- `FocusSession.get_progress_percentage` (lines 156-159). -/
def FocusSession.get_progress_percentage (s : FocusSession) : ℚ :=
  if 0 < s.duration then (s.duration - s.time_remaining) / s.duration * 100 else 100

/-! ## Keyboard input (`KeyboardInput`, main.py lines 79-114)

The terminal is modelled by its attribute word (a natural number); input
pending on the device is a list of bytes (win32 branch) or characters
(Unix branch). `get_key` returning `none` is Python's `None` sentinel. -/

/-- Lowercase a string character by character, as `str.lower()` does on
the ASCII keys this program recognises. -/
def lowerString (s : String) : String :=
  ⟨s.data.map Char.toLower⟩

/-- `bytes.decode('utf-8', errors='ignore')` for the single byte read by
`msvcrt.getch()`: an ASCII byte decodes to its character, any lone byte
`≥ 0x80` is invalid UTF-8 and is dropped, giving the empty string. -/
def decodeByte (b : ℕ) : String :=
  if b < 128 then String.singleton (Char.ofNat b) else ""

/-- `KeyboardInput.get_key`, win32 branch (lines 97-108): with no byte
pending the timeout elapses and `None` is returned; a special-key prefix
byte `0x00` or `0xe0` consumes the following byte as well and returns
`None`; any other byte is decoded and lowercased. Returns the result and
the bytes left pending. -/
def get_key_win : List ℕ → Option String × List ℕ
  | [] => (none, [])
  | b :: rest =>
    if b = 0 ∨ b = 224 then (none, rest.drop 1)
    else (some (lowerString (decodeByte b)), rest)

/-- `KeyboardInput.get_key`, Unix branch (lines 110-114): if `select`
reports input, exactly one character is read and lowercased; otherwise
`None`. Each byte of a multi-byte escape sequence is a separate read. -/
def get_key_unix : List Char → Option String × List Char
  | [] => (none, [])
  | c :: rest => (some (lowerString (String.singleton c)), rest)

/-- The `KeyboardInput` object: `old_settings` starts as `None` and holds
the captured terminal attributes after a successful `tcgetattr`. -/
structure KeyboardInput where
  old_settings : Option ℕ
deriving DecidableEq

/-- Abstract attribute word produced by `tty.setraw`. -/
def rawAttrs : ℕ := 0

/-- `KeyboardInput.__enter__` (lines 85-89) on a non-win32 platform:
`acquireOk` tells whether `tcgetattr` succeeds. On success the current
attributes are captured and the terminal switched to raw mode; on failure
the exception propagates before anything is recorded or changed. -/
def kbEnter (term : ℕ) (acquireOk : Bool) : KeyboardInput × ℕ :=
  if acquireOk then ({ old_settings := some term }, rawAttrs)
  else ({ old_settings := none }, term)

/-- `KeyboardInput.__exit__` (lines 91-93) on a non-win32 platform:
restore the captured attributes via `tcsetattr` only when `old_settings`
is set; otherwise leave the terminal untouched. -/
def kbExit (kb : KeyboardInput) (term : ℕ) : ℕ :=
  match kb.old_settings with
  | some s => s
  | none => term

/-! ## Timer traces (claims about `update_timer` / `toggle_pause`)

A trace interleaves `update_timer` calls and `toggle_pause` keypresses,
each stamped with the `time.time()` value at which it runs. -/

/-- One timer-affecting event of the focus loop. -/
inductive TimerEvent where
  | update (now : ℚ)
  | toggle (now : ℚ)
deriving DecidableEq

/-- The wall-clock stamp of an event. -/
def TimerEvent.time : TimerEvent → ℚ
  | .update t => t
  | .toggle t => t

/-- Apply one event to the session (and the mixer, which `toggle_pause`
pauses/unpauses). -/
def timerStep (sm : FocusSession × Mixer) (e : TimerEvent) : FocusSession × Mixer :=
  match e with
  | .update t => (sm.1.update_timer t, sm.2)
  | .toggle t => ((sm.1.toggle_pause sm.2 t).1, (sm.1.toggle_pause sm.2 t).2.1)

/-- Run a whole trace of events. -/
def runTimer (sm : FocusSession × Mixer) (es : List TimerEvent) : FocusSession × Mixer :=
  es.foldl timerStep sm

/-- Modelled from the spec: the reference accounting of "total wall-clock
time elapsed while the timer was in the RUNNING state", charged at each
`update` call as the delta since the last checkpoint (`ref`), with the
checkpoint reset on resume so paused intervals and the tail between the
last update and a pause keypress are excluded. -/
structure RunningClock where
  ref : ℚ
  paused : Bool
  charged : ℚ
deriving DecidableEq

/-- Spec-side accounting step mirroring the event alphabet. -/
def clockStep (a : RunningClock) : TimerEvent → RunningClock
  | .update t =>
    if a.paused then a
    else { a with ref := t, charged := a.charged + (t - a.ref) }
  | .toggle t =>
    if a.paused then { a with paused := false, ref := t }
    else { a with paused := true }

/-- Run the spec-side accounting over a trace. -/
def runClock (a : RunningClock) (es : List TimerEvent) : RunningClock :=
  es.foldl clockStep a

/-- The simulation invariant tying the code state to the spec accounting:
pause flags agree; while active the remaining time is exactly the duration
minus the charged running time, is positive, and the code's checkpoint is
the accounting checkpoint; once inactive the remaining time is clamped to
`0` and at least the whole duration has been charged. -/
def TimerInv (D : ℚ) (s : FocusSession) (a : RunningClock) : Prop :=
  s.is_paused = a.paused ∧
  (s.session_active = true →
    s.time_remaining = D - a.charged ∧ 0 < s.time_remaining ∧ s.last_update = a.ref) ∧
  (s.session_active = false → s.time_remaining = 0 ∧ D ≤ a.charged)

/-! ## The focus-session loop (`main`, lines 345-423)

One tick supplies the polled key (`None` when the 0.1 s poll timed out)
and the clock value at that tick; within a tick every `time.time()` call
reads the same value, since the poll wait dominates the tick. -/

/-- Per-tick input of the focus loop. -/
structure FocusTick where
  key : Option String
  now : ℚ
deriving DecidableEq

/-- The `while not session.is_complete()` loop (lines 349-398): space
toggles pause, `m` toggles mute, `q` deactivates the session and breaks
out before the timer update, any other key (or no key) falls through to
`update_timer`. Rendering has no effect on this state. -/
def focusLoop : List FocusTick → FocusSession → AudioPlayer → Mixer →
    FocusSession × AudioPlayer × Mixer
  | [], s, ap, mx => (s, ap, mx)
  | t :: rest, s, ap, mx =>
    if s.is_complete then (s, ap, mx)
    else if t.key = some " " then
      let p := s.toggle_pause mx t.now
      focusLoop rest (p.1.update_timer t.now) ap p.2.1
    else if t.key = some "m" then
      let q := ap.toggle_mute mx
      focusLoop rest (s.update_timer t.now) q.1 q.2.1
    else if t.key = some "q" then
      ({ s with session_active := false }, ap, mx)
    else
      focusLoop rest (s.update_timer t.now) ap mx

/-- Result of the focus phase: the final session, audio player and mixer
state, and whether the natural-completion notification path ran. -/
structure FocusOutcome where
  session : FocusSession
  audio : AudioPlayer
  mixer : Mixer
  notified : Bool
deriving DecidableEq

/-- Lines 400-423 of `main`: after the loop, stop the ambience; if
`time_remaining == 0` (natural completion) show the completion panel,
fire the desktop notification and start the looping notification sound,
otherwise show the early-exit panel. -/
def focusPhase (ticks : List FocusTick) (s : FocusSession) (ap : AudioPlayer)
    (mx : Mixer) : FocusOutcome :=
  let r := focusLoop ticks s ap mx
  let mx1 := r.2.2.stop
  if r.1.time_remaining = 0 then
    { session := r.1, audio := r.2.1, mixer := mx1.play, notified := true }
  else
    { session := r.1, audio := r.2.1, mixer := mx1, notified := false }

/-! ## The meditation loop (`MeditationPlayer.play_with_progress`,
lines 166-255)

Each loop iteration (outer or inner pause loop) consumes one tick, made
of the polled key, the `pygame.mixer.music.get_busy()` value observed at
the loop head, and the clock value of the tick. -/

/-- Per-tick input of the meditation loops. -/
structure MedTick where
  key : Option String
  busy : Bool
  now : ℚ
deriving DecidableEq

/-- The `MeditationPlayer` object fields. -/
structure MeditationPlayer where
  skip_requested : Bool
  is_paused : Bool
deriving DecidableEq

/-- The inner `while self.is_paused and not self.skip_requested` loop
(lines 233-241): space resumes (and unpauses audio), `s` requests a skip
and breaks, anything else just polls again. Returns the player, the
mixer, the clock value at loop exit (used for the pause-duration
adjustment), and the ticks left over for the outer loop. -/
def medPauseLoop : List MedTick → MeditationPlayer → Mixer → ℚ →
    MeditationPlayer × Mixer × ℚ × List MedTick
  | [], md, mx, clk => (md, mx, clk, [])
  | t :: rest, md, mx, clk =>
    if md.is_paused = true ∧ md.skip_requested = false then
      if t.key = some " " then
        medPauseLoop rest { md with is_paused := false } mx.unpause t.now
      else if t.key = some "s" then
        ({ md with skip_requested := true }, mx, t.now, rest)
      else medPauseLoop rest md mx t.now
    else (md, mx, clk, t :: rest)

/-- The inner pause loop consumes ticks, never invents them. -/
theorem medPauseLoop_length (ts : List MedTick) :
    ∀ md mx clk, (medPauseLoop ts md mx clk).2.2.2.length ≤ ts.length := by
  induction ts with
  | nil => intro md mx clk; simp [medPauseLoop]
  | cons t rest ih =>
    intro md mx clk
    simp only [medPauseLoop]
    split_ifs with h1 h2 h3
    · exact (ih _ _ _).trans (Nat.le_succ _)
    · simp
    · exact (ih _ _ _).trans (Nat.le_succ _)
    · simp

/-- The outer meditation loop (lines 207-244): while the audio is busy or
playback is paused, and no skip was requested — `s` breaks with
`skip_requested` set before the elapsed time is recomputed; space toggles
pause and the audio; while unpaused, `elapsed_time` is recomputed from
`start_time` and the loop breaks once it reaches `duration_ms`; while
paused, the inner pause loop runs and on resume the paused interval is
added back into `start_time`. Returns the player, mixer and final
`elapsed_time`. -/
def medLoop (dur : ℚ) : List MedTick → MeditationPlayer → Mixer → ℚ → ℚ →
    MeditationPlayer × Mixer × ℚ
  | [], md, mx, _, el => (md, mx, el)
  | t :: rest, md, mx, st, el =>
    if (t.busy = true ∨ md.is_paused = true) ∧ md.skip_requested = false then
      if t.key = some "s" then ({ md with skip_requested := true }, mx, el)
      else
        let md1 := if t.key = some " " then { md with is_paused := !md.is_paused } else md
        let mx1 := if t.key = some " " then (if md1.is_paused then mx.pause else mx.unpause) else mx
        if md1.is_paused = false then
          let el1 := (t.now - st) * 1000
          if dur ≤ el1 then (md1, mx1, el1)
          else medLoop dur rest md1 mx1 st el1
        else
          let r := medPauseLoop rest md1 mx1 t.now
          if r.1.skip_requested = false then
            medLoop dur r.2.2.2 r.1 r.2.1 (st + (r.2.2.1 - t.now)) el
          else
            medLoop dur r.2.2.2 r.1 r.2.1 st el
    else (md, mx, el)
termination_by ts _ _ _ _ => ts.length
decreasing_by
  · simp only [List.length_cons]; omega
  · simp only [List.length_cons]
    exact Nat.lt_succ_of_le (medPauseLoop_length _ _ _ _)
  · simp only [List.length_cons]
    exact Nat.lt_succ_of_le (medPauseLoop_length _ _ _ _)

/-- How the meditation phase ended (lines 249-252). -/
inductive MedOutcome where
  | skipped
  | completed
deriving DecidableEq

/-- `play_with_progress` around the loop: start playback, run the loop
from a fresh player with `elapsed_time = 0`, stop the audio on every exit
path, and report "skipped" exactly when `skip_requested` is set. -/
def play_with_progress (duration_ms : ℚ) (t0 : ℚ) (ticks : List MedTick)
    (mx : Mixer) : MeditationPlayer × Mixer × MedOutcome :=
  let r := medLoop duration_ms ticks { skip_requested := false, is_paused := false } mx.play t0 0
  (r.1, r.2.1.stop, if r.1.skip_requested then .skipped else .completed)

/-! ## Theorems -/

/-- While paused, `update_timer` is a complete no-op. -/
theorem update_timer_of_paused (s : FocusSession) (now : ℚ)
    (h : s.is_paused = true) : s.update_timer now = s := by
  simp [FocusSession.update_timer, h]

/-- Once inactive, `update_timer` is a complete no-op. -/
theorem update_timer_of_inactive (s : FocusSession) (now : ℚ)
    (h : s.session_active = false) : s.update_timer now = s := by
  simp [FocusSession.update_timer, h]

/-- While paused, any whole sequence of `update_timer` calls is a no-op. -/
theorem foldl_update_timer_of_paused (ts : List ℚ) :
    ∀ s : FocusSession, s.is_paused = true →
      ts.foldl FocusSession.update_timer s = s := by
  induction ts with
  | nil => intro s _; rfl
  | cons t ts ih =>
    intro s h
    simp only [List.foldl_cons, update_timer_of_paused s t h]
    exact ih s h

/-- Claim C2: for every session state with `is_paused = true`, any finite
sequence of `update_timer` calls leaves `time_remaining` unchanged, no
matter which wall-clock values the calls observe. -/
theorem paused_updates_preserve_time_remaining (s : FocusSession)
    (ts : List ℚ) (h : s.is_paused = true) :
    (ts.foldl FocusSession.update_timer s).time_remaining = s.time_remaining := by
  rw [foldl_update_timer_of_paused ts s h]

/-- Witness for C2: a paused session keeps `time_remaining = 42` across
updates observed at times 1, 5 and 1000. -/
theorem paused_updates_preserve_time_remaining_witness :
    ([1, 5, 1000].foldl FocusSession.update_timer
      (⟨60, true, true, 42, 0⟩ : FocusSession)).time_remaining = 42 :=
  paused_updates_preserve_time_remaining ⟨60, true, true, 42, 0⟩ [1, 5, 1000] rfl

/-- Counterexample to C3 as stated: on a paused session whose
`last_update` is 0, an update call at time 5 does not advance
`last_update` to 5 — the call is a no-op while paused. -/
theorem update_advances_last_update_counterexample :
    ((⟨60, true, true, 42, 0⟩ : FocusSession).update_timer 5).last_update ≠ 5 := by
  decide

/-- Claim C3 (amended): `update_timer` advances `last_update` to the
current time exactly when the timer is running (not paused and still
active), and then decrements `time_remaining` by the wall-clock delta
(clamping at completion); while paused or complete the call is a complete
no-op, leaving `last_update` (and every other field) unchanged. -/
theorem update_timer_last_update_amended (s : FocusSession) (now : ℚ) :
    (s.is_paused = false → s.session_active = true →
      (s.update_timer now).last_update = now) ∧
    (s.is_paused = true ∨ s.session_active = false → s.update_timer now = s) := by
  constructor
  · intro h1 h2
    by_cases h3 : s.time_remaining - (now - s.last_update) ≤ 0 <;>
      simp [FocusSession.update_timer, h1, h2, h3]
  · rintro (h | h)
    · exact update_timer_of_paused s now h
    · exact update_timer_of_inactive s now h

/-- Witness for the amended C3: a running update at time 5 advances
`last_update` to 5; a paused update at time 5 changes nothing. -/
theorem update_timer_last_update_amended_witness :
    ((⟨60, false, true, 42, 0⟩ : FocusSession).update_timer 5).last_update = 5 ∧
    (⟨60, true, true, 42, 0⟩ : FocusSession).update_timer 5 = ⟨60, true, true, 42, 0⟩ :=
  ⟨(update_timer_last_update_amended ⟨60, false, true, 42, 0⟩ 5).1 rfl rfl,
   (update_timer_last_update_amended ⟨60, true, true, 42, 0⟩ 5).2 (Or.inl rfl)⟩

/-- Claim C4: when a running update drives the remaining time to `≤ 0`,
the session completes in that very call — `session_active` is cleared,
`time_remaining` is clamped to exactly 0, `last_update` takes the current
time, and `is_complete` reports true; and the complete state is terminal:
once `session_active = false`, every further `update_timer` call leaves
every field unchanged. -/
theorem completion_clamps_and_is_terminal (s : FocusSession) (now : ℚ) :
    (s.is_paused = false → s.session_active = true →
      s.time_remaining - (now - s.last_update) ≤ 0 →
      s.update_timer now =
        { s with time_remaining := 0, session_active := false, last_update := now } ∧
      (s.update_timer now).is_complete = true) ∧
    (s.session_active = false → ∀ t : ℚ, s.update_timer t = s) := by
  constructor
  · intro h1 h2 h3
    constructor
    · simp [FocusSession.update_timer, h1, h2, h3]
    · simp [FocusSession.update_timer, FocusSession.is_complete, h1, h2, h3]
  · intro h t
    exact update_timer_of_inactive s t h

/-- Witness for C4: a session with 3 seconds left, updated 10 seconds
after its checkpoint, completes with `time_remaining` exactly 0; every
further update on the completed state is the identity. -/
theorem completion_clamps_and_is_terminal_witness :
    (⟨60, false, true, 3, 0⟩ : FocusSession).update_timer 10 = ⟨60, false, false, 0, 10⟩ ∧
    (⟨60, false, false, 0, 10⟩ : FocusSession).update_timer 99 = ⟨60, false, false, 0, 10⟩ :=
  ⟨((completion_clamps_and_is_terminal ⟨60, false, true, 3, 0⟩ 10).1 rfl rfl
      (by norm_num)).1,
   (completion_clamps_and_is_terminal ⟨60, false, false, 0, 10⟩ 99).2 rfl 99⟩

/-- Counterexample to C5 as stated: the involution does not hold for
arbitrary states. Starting muted with mixer volume 1/2 and recorded
volume 3/10, two toggles end at volume 0, not the pre-toggle 1/2. -/
theorem toggle_mute_involution_counterexample :
    ¬ (((AudioPlayer.toggle_mute ⟨true, 3/10⟩ ⟨true, false, 1/2⟩).1.toggle_mute
          (AudioPlayer.toggle_mute ⟨true, 3/10⟩ ⟨true, false, 1/2⟩).2.1).2.1.volume
        = (1/2 : ℚ)) := by
  norm_num [AudioPlayer.toggle_mute, Mixer.set_volume]

/-- Claim C5 (amended): on every state satisfying the mute invariant —
the mixer volume is 0 whenever `is_muted` is set, which holds of every
state the program can reach — calling `toggle_mute` twice restores the
exact pre-toggle volume and mute flag; moreover, unconditionally, a
single toggle from the unmuted state records the current volume in
`saved_volume`, sets the volume to 0 and returns true, while from the
muted state it restores the recorded volume and returns false. -/
theorem toggle_mute_amended (ap : AudioPlayer) (mx : Mixer)
    (hinv : ap.is_muted = true → mx.volume = 0) :
    (((ap.toggle_mute mx).1.toggle_mute (ap.toggle_mute mx).2.1).2.1.volume = mx.volume ∧
     ((ap.toggle_mute mx).1.toggle_mute (ap.toggle_mute mx).2.1).1.is_muted = ap.is_muted) ∧
    (ap.is_muted = false →
      (ap.toggle_mute mx).2.2 = true ∧
      (ap.toggle_mute mx).1.saved_volume = mx.volume ∧
      (ap.toggle_mute mx).2.1.volume = 0) ∧
    (ap.is_muted = true →
      (ap.toggle_mute mx).2.2 = false ∧
      (ap.toggle_mute mx).2.1.volume = ap.saved_volume) := by
  by_cases h : ap.is_muted = true
  · have hv := hinv h
    refine ⟨?_, ?_, ?_⟩ <;>
      simp [AudioPlayer.toggle_mute, Mixer.set_volume, h, hv]
  · have h' : ap.is_muted = false := by
      cases hm : ap.is_muted
      · rfl
      · exact absurd hm h
    refine ⟨?_, ?_, ?_⟩ <;>
      simp [AudioPlayer.toggle_mute, Mixer.set_volume, h']

/-- Witness for the amended C5: from an unmuted state at volume 7/10,
two toggles restore volume 7/10. -/
theorem toggle_mute_amended_witness :
    ((AudioPlayer.toggle_mute ⟨false, 1⟩ ⟨true, false, 7/10⟩).1.toggle_mute
      (AudioPlayer.toggle_mute ⟨false, 1⟩ ⟨true, false, 7/10⟩).2.1).2.1.volume = 7/10 :=
  (toggle_mute_amended ⟨false, 1⟩ ⟨true, false, 7/10⟩ (by decide)).1.1

/-- Counterexample to C6 as stated: on the Unix branch a multi-byte
escape sequence (an arrow key sends ESC, then a bracket, then a letter)
is not folded into the no-input sentinel — the first poll returns the
ESC byte as a key. -/
theorem get_key_multibyte_counterexample :
    (get_key_unix ['\x1b', '[', 'A']).1 ≠ none := by
  decide

/-- Claim C6 (amended): only the win32 branch folds special sequences —
a pending prefix byte 0x00 or 0xe0 makes `get_key` consume the prefix
and the following byte and return the no-input sentinel, an ordinary
byte is returned decoded and lowercased, and an empty queue means the
timeout elapses and returns the sentinel; the Unix branch returns every
pending byte one at a time, lowercased, so a multi-byte sequence is
propagated byte by byte rather than folded. -/
theorem get_key_amended :
    (∀ (b2 : ℕ) (rest : List ℕ), get_key_win (0 :: b2 :: rest) = (none, rest)) ∧
    (∀ (b2 : ℕ) (rest : List ℕ), get_key_win (224 :: b2 :: rest) = (none, rest)) ∧
    (∀ (b : ℕ) (rest : List ℕ), b ≠ 0 → b ≠ 224 →
      get_key_win (b :: rest) = (some (lowerString (decodeByte b)), rest)) ∧
    get_key_win [] = (none, []) ∧
    get_key_unix [] = (none, []) ∧
    (∀ (c : Char) (rest : List Char),
      get_key_unix (c :: rest) = (some (lowerString (String.singleton c)), rest)) := by
  refine ⟨fun b2 rest => by simp [get_key_win],
          fun b2 rest => by simp [get_key_win],
          fun b rest h0 h224 => by simp [get_key_win, h0, h224],
          rfl, rfl, fun c rest => rfl⟩

/-- Witness for the amended C6: the ordinary byte 65 is returned as the
lowercased key string. -/
theorem get_key_amended_witness :
    get_key_win [65] = (some "a", []) := by
  have h := get_key_amended.2.2.1 65 [] (by decide) (by decide)
  rw [h]
  decide

/-- Claim C9: the raw-input scope never restores without having
acquired. If `old_settings` was never set (acquisition failed or never
ran), `__exit__` leaves the terminal untouched; if acquisition
succeeded, `__exit__` restores exactly the captured prior attributes;
the enter/exit round trip therefore always ends with the original
attributes, and a failed acquisition leaves the terminal unswitched with
nothing recorded. -/
theorem raw_restore_iff_acquired :
    (∀ term : ℕ, kbExit ⟨none⟩ term = term) ∧
    (∀ term s : ℕ, kbExit ⟨some s⟩ term = s) ∧
    (∀ term : ℕ, kbExit (kbEnter term true).1 (kbEnter term true).2 = term) ∧
    (∀ term : ℕ, (kbEnter term false).1.old_settings = none ∧
      (kbEnter term false).2 = term ∧
      kbExit (kbEnter term false).1 (kbEnter term false).2 = term) :=
  ⟨fun _ => rfl, fun _ _ => rfl, fun _ => rfl, fun _ => ⟨rfl, rfl, rfl⟩⟩

/-- The session result of `toggle_pause` does not depend on the mixer. -/
theorem toggle_pause_session_mixer_indep (s : FocusSession) (mx mx2 : Mixer)
    (now : ℚ) : (s.toggle_pause mx now).1 = (s.toggle_pause mx2 now).1 := by
  by_cases h : s.is_paused = true <;> simp [FocusSession.toggle_pause, h]

/-- The session component of the focus loop depends only on the session
and the tick inputs, never on the audio-player or mixer state. -/
theorem focusLoop_session_indep (ticks : List FocusTick) :
    ∀ (s : FocusSession) (ap ap2 : AudioPlayer) (mx mx2 : Mixer),
      (focusLoop ticks s ap mx).1 = (focusLoop ticks s ap2 mx2).1 := by
  induction ticks with
  | nil => intro s ap ap2 mx mx2; rfl
  | cons t rest ih =>
    intro s ap ap2 mx mx2
    simp only [focusLoop]
    by_cases hc : s.is_complete
    · simp [hc]
    · by_cases hsp : t.key = some " "
      · simp only [hc, if_false, hsp, if_true]
        rw [toggle_pause_session_mixer_indep s mx mx2 t.now]
        exact ih _ _ _ _ _
      · by_cases hm : t.key = some "m"
        · simp only [hc, if_false, hsp, hm, if_true]
          exact ih _ _ _ _ _
        · by_cases hq : t.key = some "q"
          · simp [hc, hsp, hm, hq]
          · simp only [hc, if_false, hsp, hm, hq]
            exact ih _ _ _ _ _

/-- Claim C10: `toggle_mute` only touches volume, `is_muted` and
`saved_volume` — the mixer's playback and pause flags are unchanged, and
the focus-session timer is untouched: a focus-loop tick that reads the
mute key yields exactly the same session state (countdown, pause flag,
activity, checkpoint) as a tick that reads no key at all. -/
theorem toggle_mute_frame :
    (∀ (ap : AudioPlayer) (mx : Mixer),
      (ap.toggle_mute mx).2.1.paused = mx.paused ∧
      (ap.toggle_mute mx).2.1.playing = mx.playing) ∧
    (∀ (s : FocusSession) (ap : AudioPlayer) (mx : Mixer) (now : ℚ)
        (rest : List FocusTick),
      (focusLoop (⟨some "m", now⟩ :: rest) s ap mx).1 =
      (focusLoop (⟨none, now⟩ :: rest) s ap mx).1) := by
  constructor
  · intro ap mx
    by_cases h : ap.is_muted = true <;>
      simp [AudioPlayer.toggle_mute, Mixer.set_volume, h]
  · intro s ap mx now rest
    simp only [focusLoop]
    by_cases hc : s.is_complete
    · simp [hc]
    · simp only [hc, if_false]
      norm_num
      exact focusLoop_session_indep rest _ _ _ _ _

/-- Claim C7: if the quit key is read while the session is still active
with time remaining, the loop exits at once with `session_active = false`
and `time_remaining` keeps its current positive value (it is not forced
to 0); the natural-completion path (panel, desktop notification,
notification sound) does not run — indeed that path runs exactly when
`time_remaining = 0` at loop exit. -/
theorem quit_key_behavior (s : FocusSession) (ap : AudioPlayer) (mx : Mixer)
    (t : FocusTick) (rest : List FocusTick)
    (ha : s.session_active = true) (hp : 0 < s.time_remaining)
    (hk : t.key = some "q") :
    (focusPhase (t :: rest) s ap mx).session.session_active = false ∧
    (focusPhase (t :: rest) s ap mx).session.time_remaining = s.time_remaining ∧
    0 < (focusPhase (t :: rest) s ap mx).session.time_remaining ∧
    (focusPhase (t :: rest) s ap mx).notified = false ∧
    (∀ (ticks : List FocusTick) (s0 : FocusSession) (ap0 : AudioPlayer)
        (mx0 : Mixer),
      (focusPhase ticks s0 ap0 mx0).notified = true ↔
      (focusLoop ticks s0 ap0 mx0).1.time_remaining = 0) := by
  have hc : s.is_complete = false := by
    simp [FocusSession.is_complete, ha]
  have hloop : focusLoop (t :: rest) s ap mx =
      ({ s with session_active := false }, ap, mx) := by
    simp only [focusLoop, hc, hk, if_false]
    rw [if_neg (show ¬(some "q" = some " ") by decide),
        if_neg (show ¬(some "q" = some "m") by decide)]
    simp
  have hiff : ∀ (ticks : List FocusTick) (s0 : FocusSession)
      (ap0 : AudioPlayer) (mx0 : Mixer),
      (focusPhase ticks s0 ap0 mx0).notified = true ↔
      (focusLoop ticks s0 ap0 mx0).1.time_remaining = 0 := by
    intro ticks s0 ap0 mx0
    by_cases h : (focusLoop ticks s0 ap0 mx0).1.time_remaining = 0 <;>
      simp [focusPhase, h]
  have hne : s.time_remaining ≠ 0 := ne_of_gt hp
  refine ⟨?_, ?_, ?_, ?_, hiff⟩
  · simp [focusPhase, hloop, hne]
  · simp [focusPhase, hloop, hne]
  · simpa [focusPhase, hloop, hne] using hp
  · simp [focusPhase, hloop, hne]

/-- Witness for C7: quit pressed 3 seconds into an 11-minute session —
the loop exits inactive with all 660 seconds still recorded and no
notification. -/
theorem quit_key_behavior_witness :
    (focusPhase [⟨some "q", 3⟩] (FocusSession.init 11 0) AudioPlayer.init
      ⟨true, false, 1⟩).session.session_active = false ∧
    (focusPhase [⟨some "q", 3⟩] (FocusSession.init 11 0) AudioPlayer.init
      ⟨true, false, 1⟩).session.time_remaining = 660 ∧
    (focusPhase [⟨some "q", 3⟩] (FocusSession.init 11 0) AudioPlayer.init
      ⟨true, false, 1⟩).notified = false := by
  have h := quit_key_behavior (FocusSession.init 11 0) AudioPlayer.init
    ⟨true, false, 1⟩ ⟨some "q", 3⟩ [] rfl (by norm_num [FocusSession.init]) rfl
  refine ⟨h.1, ?_, h.2.2.2.1⟩
  rw [h.2.1]
  norm_num [FocusSession.init]

/-- Claim C8: in the meditation phase a skip keypress takes effect
whether playing or paused — in the outer loop it sets `skip_requested`
and exits immediately, leaving `elapsed_time` exactly as it was and
ignoring every later tick; in the inner pause loop it sets
`skip_requested` and breaks at once; the audio channel is stopped on
every exit path of `play_with_progress` (skip and natural completion
alike); and the reported outcome is "skipped", not "complete", exactly
when `skip_requested` is set. -/
theorem meditation_skip_behavior :
    (∀ (dur : ℚ) (t : MedTick) (rest : List MedTick) (md : MeditationPlayer)
        (mx : Mixer) (st el : ℚ),
      t.key = some "s" → (t.busy = true ∨ md.is_paused = true) →
      md.skip_requested = false →
      medLoop dur (t :: rest) md mx st el =
        ({ md with skip_requested := true }, mx, el)) ∧
    (∀ (t : MedTick) (rest : List MedTick) (md : MeditationPlayer)
        (mx : Mixer) (clk : ℚ),
      t.key = some "s" → md.is_paused = true → md.skip_requested = false →
      medPauseLoop (t :: rest) md mx clk =
        ({ md with skip_requested := true }, mx, t.now, rest)) ∧
    (∀ (dur t0 : ℚ) (ticks : List MedTick) (mx : Mixer),
      (play_with_progress dur t0 ticks mx).2.1.playing = false) ∧
    (∀ (dur t0 : ℚ) (ticks : List MedTick) (mx : Mixer),
      (play_with_progress dur t0 ticks mx).2.2 = MedOutcome.skipped ↔
      (play_with_progress dur t0 ticks mx).1.skip_requested = true) := by
  refine ⟨?_, ?_, ?_, ?_⟩
  · intro dur t rest md mx st el hk hb hs
    simp only [medLoop]
    rw [if_pos ⟨hb, hs⟩, if_pos hk]
  · intro t rest md mx clk hk hp hs
    simp only [medPauseLoop]
    rw [if_pos ⟨hp, hs⟩,
        if_neg (by rw [hk]; decide),
        if_pos hk]
  · intro dur t0 ticks mx
    simp [play_with_progress, Mixer.stop]
  · intro dur t0 ticks mx
    by_cases h : (medLoop dur ticks ⟨false, false⟩ mx.play t0 0).1.skip_requested = true <;>
      simp [play_with_progress, h]

/-- Witness for C8: skip pressed at t=2 s of a 180000 ms meditation —
the loop exits at once with `skip_requested` set, elapsed time still 0,
and the phase reports the skipped outcome with audio stopped. -/
theorem meditation_skip_behavior_witness :
    medLoop 180000 [⟨some "s", true, 2⟩] ⟨false, false⟩ ⟨true, false, 1⟩ 0 0 =
      (⟨true, false⟩, ⟨true, false, 1⟩, 0) ∧
    (play_with_progress 180000 0 [⟨some "s", true, 2⟩] ⟨false, false, 1⟩).2.1.playing
      = false :=
  ⟨meditation_skip_behavior.1 180000 ⟨some "s", true, 2⟩ [] ⟨false, false⟩
      ⟨true, false, 1⟩ 0 0 rfl (Or.inl rfl) rfl,
   meditation_skip_behavior.2.2.1 180000 0 [⟨some "s", true, 2⟩] ⟨false, false, 1⟩⟩

/-- One accounting step moves the checkpoint either nowhere or to the
event's time. -/
theorem clockStep_ref (a : RunningClock) (e : TimerEvent) :
    (clockStep a e).ref = a.ref ∨ (clockStep a e).ref = e.time := by
  cases e with
  | update t =>
    by_cases h : a.paused = true <;> simp [clockStep, TimerEvent.time, h]
  | toggle t =>
    by_cases h : a.paused = true <;> simp [clockStep, TimerEvent.time, h]

/-- The simulation invariant is preserved by each event, provided the
event is not stamped before the current checkpoint. -/
theorem timerStep_inv (D : ℚ) (s : FocusSession) (m : Mixer)
    (a : RunningClock) (e : TimerEvent) (h : TimerInv D s a)
    (ht : a.ref ≤ e.time) :
    TimerInv D (timerStep (s, m) e).1 (clockStep a e) := by
  obtain ⟨hflag, hact, hinact⟩ := h
  cases e with
  | update t =>
    by_cases hpause : s.is_paused = true
    · have hap : a.paused = true := hflag ▸ hpause
      rw [show timerStep (s, m) (.update t) = (s.update_timer t, m) from rfl]
      rw [update_timer_of_paused s t hpause]
      simp only [clockStep, hap, if_true]
      exact ⟨hflag, hact, hinact⟩
    · have hpf : s.is_paused = false := by
        cases hx : s.is_paused
        · rfl
        · exact absurd hx hpause
      have hap : a.paused = false := hflag ▸ hpf
      have hcs : clockStep a (TimerEvent.update t) =
          { ref := t, paused := false, charged := a.charged + (t - a.ref) } := by
        simp [clockStep, hap]
      have ht2 : a.ref ≤ t := ht
      by_cases hs : s.session_active = true
      · obtain ⟨htr, hpos, href⟩ := hact hs
        rw [show timerStep (s, m) (.update t) = (s.update_timer t, m) from rfl]
        by_cases hle : s.time_remaining - (t - s.last_update) ≤ 0
        · have hcode : s.update_timer t =
              { s with time_remaining := 0, session_active := false,
                       last_update := t } := by
            simp [FocusSession.update_timer, hpf, hs, hle]
          rw [hcode, hcs]
          refine ⟨by simp [hpf], fun habs => by simp at habs, fun _ => ⟨rfl, ?_⟩⟩
          show D ≤ a.charged + (t - a.ref)
          rw [href, htr] at hle
          linarith
        · have hcode : s.update_timer t =
              { s with time_remaining := s.time_remaining - (t - s.last_update),
                       last_update := t } := by
            simp [FocusSession.update_timer, hpf, hs, hle]
          rw [hcode, hcs]
          refine ⟨by simp [hpf], fun _ => ⟨?_, ?_, ?_⟩,
            fun habs => absurd habs (by simp [hs])⟩
          · show s.time_remaining - (t - s.last_update) =
              D - (a.charged + (t - a.ref))
            rw [htr, href]
            ring
          · show 0 < s.time_remaining - (t - s.last_update)
            linarith [not_le.mp hle]
          · rfl
      · have hs' : s.session_active = false := by
          cases hx : s.session_active
          · rfl
          · exact absurd hx hs
        obtain ⟨htr, hch⟩ := hinact hs'
        rw [show timerStep (s, m) (.update t) = (s.update_timer t, m) from rfl]
        rw [update_timer_of_inactive s t hs', hcs]
        refine ⟨hpf, fun habs => absurd habs hs, fun _ => ⟨htr, ?_⟩⟩
        show D ≤ a.charged + (t - a.ref)
        linarith
  | toggle t =>
    by_cases hpause : s.is_paused = true
    · have hap : a.paused = true := hflag ▸ hpause
      have hcode : timerStep (s, m) (.toggle t) =
          ({ s with is_paused := false, last_update := t }, m.unpause) := by
        simp [timerStep, FocusSession.toggle_pause, hpause]
      rw [hcode]
      simp only [clockStep, hap, if_true]
      refine ⟨rfl, fun hs => ?_, fun hs => hinact hs⟩
      obtain ⟨htr, hpos, _⟩ := hact hs
      exact ⟨htr, hpos, rfl⟩
    · have hpf : s.is_paused = false := by
        cases hx : s.is_paused
        · rfl
        · exact absurd hx hpause
      have hap : a.paused = false := hflag ▸ hpf
      have hcode : timerStep (s, m) (.toggle t) =
          ({ s with is_paused := true }, m.pause) := by
        simp [timerStep, FocusSession.toggle_pause, hpf]
      rw [hcode]
      simp only [clockStep, hap, if_false]
      exact ⟨rfl, fun hs => hact hs, fun hs => hinact hs⟩

/-- The simulation invariant holds after any whole trace whose event
stamps are nondecreasing and start no earlier than the checkpoint. -/
theorem runTimer_inv (D : ℚ) (es : List TimerEvent) :
    ∀ (s : FocusSession) (m : Mixer) (a : RunningClock),
      TimerInv D s a →
      List.Chain' (· ≤ ·) (a.ref :: es.map TimerEvent.time) →
      TimerInv D (runTimer (s, m) es).1 (runClock a es) := by
  induction es with
  | nil => intro s m a h _; exact h
  | cons e rest ih =>
    intro s m a h hchain
    have hte : a.ref ≤ e.time := (List.chain'_cons.mp hchain).1
    have htail : List.Chain' (· ≤ ·) (e.time :: rest.map TimerEvent.time) :=
      (List.chain'_cons.mp hchain).2
    have h1 := timerStep_inv D s m a e h hte
    have hchain2 : List.Chain' (· ≤ ·)
        ((clockStep a e).ref :: rest.map TimerEvent.time) := by
      rcases clockStep_ref a e with hr | hr
      · rw [hr]
        cases hrest : rest.map TimerEvent.time with
        | nil => simp
        | cons x xs =>
          rw [hrest] at htail
          exact List.chain'_cons.mpr
            ⟨le_trans hte (List.chain'_cons.mp htail).1,
             (List.chain'_cons.mp htail).2⟩
      · rw [hr]; exact htail
    have h2 := ih (timerStep (s, m) e).1 (timerStep (s, m) e).2
      (clockStep a e) h1 hchain2
    simpa [runTimer, runClock] using h2

/-- Splitting one accounting update into two changes nothing: charged
running time telescopes, so the final account is independent of how
finely the updates partition a running interval. -/
theorem clockStep_update_collapse (a : RunningClock) (t1 t2 : ℚ) :
    clockStep (clockStep a (.update t1)) (.update t2) =
      clockStep a (.update t2) := by
  by_cases h : a.paused = true
  · simp [clockStep, h]
  · have h' : a.paused = false := by
      cases hx : a.paused
      · rfl
      · exact absurd hx h
    simp [clockStep, h']
    ring

/-- Claim C1: a session of `m` minutes created at time `t0`, driven by
any interleaving of `update_timer` calls and `toggle_pause` keypresses
with nondecreasing `time.time()` stamps, ends with
`time_remaining = max 0 (60*m - charged)`, where `charged` is the
spec-side total of running time actually closed by update calls — time
spent paused, and the stretch between the last update and a pause
keypress, are excluded exactly; and the accounting (hence the final
remaining time) is invariant under refining an update into two. -/
theorem timer_additivity (mins t0 : ℚ) (hm : 0 < mins) (mx : Mixer)
    (es : List TimerEvent)
    (hmono : List.Chain' (· ≤ ·) (t0 :: es.map TimerEvent.time)) :
    (runTimer (FocusSession.init mins t0, mx) es).1.time_remaining
      = max 0 (mins * 60 - (runClock ⟨t0, false, 0⟩ es).charged) ∧
    (∀ (a : RunningClock) (t1 t2 : ℚ),
      clockStep (clockStep a (.update t1)) (.update t2) =
        clockStep a (.update t2)) := by
  refine ⟨?_, fun a t1 t2 => clockStep_update_collapse a t1 t2⟩
  have hinv0 : TimerInv (mins * 60) (FocusSession.init mins t0)
      ⟨t0, false, 0⟩ := by
    refine ⟨rfl, fun _ => ⟨by simp [FocusSession.init], ?_, rfl⟩,
      fun habs => by simp [FocusSession.init] at habs⟩
    simp only [FocusSession.init]
    positivity
  have hfin := runTimer_inv (mins * 60) es (FocusSession.init mins t0) mx
    ⟨t0, false, 0⟩ hinv0 hmono
  obtain ⟨hflag, hact, hinact⟩ := hfin
  by_cases hs : (runTimer (FocusSession.init mins t0, mx) es).1.session_active = true
  · obtain ⟨htr, hpos, _⟩ := hact hs
    rw [htr, max_eq_right]
    rw [htr] at hpos
    linarith
  · have hs' : (runTimer (FocusSession.init mins t0, mx) es).1.session_active = false := by
      cases hx : (runTimer (FocusSession.init mins t0, mx) es).1.session_active
      · rfl
      · exact absurd hx hs
    obtain ⟨htr, hch⟩ := hinact hs'
    rw [htr, max_eq_left]
    linarith

/-- Witness for C1: a 1-minute session, updated at t=5, paused at t=5,
vacuously updated at t=9, resumed at t=9 and updated at t=12, has
charged 8 running seconds and 52 seconds remaining. -/
theorem timer_additivity_witness :
    (runTimer (FocusSession.init 1 0, ⟨true, false, 1⟩)
        [.update 5, .toggle 5, .update 9, .toggle 9, .update 12]).1.time_remaining
      = max 0 (1 * 60 -
        (runClock ⟨0, false, 0⟩
          [.update 5, .toggle 5, .update 9, .toggle 9, .update 12]).charged) :=
  (timer_additivity 1 0 (by norm_num) ⟨true, false, 1⟩
    [.update 5, .toggle 5, .update 9, .toggle 9, .update 12]
    (by norm_num [List.chain'_cons, TimerEvent.time])).1
